import Mathlib

/-!
Verification of the vcf2csv converter (src/vcf2csv.py).

The Python program reads a VCF 2.1 file as a sequence of text lines, groups
them into vCard blocks, extracts the formatted name (`FN`) and the telephone
numbers (`TEL`) from each block with regular expressions, builds one
fixed-schema CSV row per block and finally writes a header row plus all data
rows.

This file is a shallow embedding of that program:
* strings are modelled as `List Char` (`Str`) so that the regex scans can be
  written as structural recursions;
* the Python `dict` backing a `CsvStructure` is modelled as an ordered
  association list with unique keys (`dict.fromkeys` preserves key order, and
  assignment updates in place);
* Python exceptions (`KeyError`, the `AttributeError` raised by calling
  `.group` on a failed `re.search`, `UnicodeDecodeError`) are modelled with
  `Except ConvError`.
-/

/-- Strings of the modelled program, as lists of characters. -/
abbrev Str := List Char

/-- The apostrophe character, written via its code point. -/
def apos : Char := Char.ofNat 39

/-- The column name containing an apostrophe. -/
def assistantsPhone : String := "Assistant" ++ String.mk [apos] ++ "s Phone"

/-- `CSV_FILE_HEADERS` of vcf2csv.py: the fixed Outlook 2003 column schema,
in source order. -/
def CSV_FILE_HEADERS : List String :=
  ["Title", "First Name", "Middle Name", "Last Name", "Suffix",
   "Given Name Yomi", "Family Name Yomi", "Home Street", "Home City",
   "Home State", "Home Postal Code", "Home Country", "Company", "Department",
   "Job Title", "Office Location", "Business Street", "Business City",
   "Business State", "Business Postal Code", "Business Country",
   "Other Street", "Other City", "Other State", "Other Postal Code",
   "Other Country", assistantsPhone, "Business Fax", "Business Phone",
   "Business Phone 2", "Callback", "Car Phone", "Company Main Phone",
   "Home Fax", "Home Phone", "Home Phone 2", "ISDN", "Mobile Phone",
   "Other Fax", "Other Phone", "Pager", "Primary Phone", "Radio Phone",
   "TTY/TDD Phone", "Telex", "Anniversary", "Birthday",
   "E-mail Address", "E-mail Type", "E-mail 2 Address",
   "E-mail 2 Type", "E-mail 3 Address", "E-mail 3 Type", "Notes",
   "Spouse", "Web Page"]

/-- `CsvStructure.__phone_cells`: the phone columns in priority order. -/
def phoneCells : List String :=
  ["Mobile Phone", "Primary Phone", "Other Phone", "Home Phone",
   "Home Phone 2", "Business Phone", "Business Phone 2",
   "Radio Phone", "TTY/TDD Phone", "Car Phone", "Company Main Phone",
   assistantsPhone]

/-- One Python `dict` entry of `CsvStructure.__fields`: a column name mapped
to an optional string (`None` for unset columns). -/
abbrev FieldDict := List (String × Option Str)

/-- Python `dict` assignment `d[k] = v` on a dict with unique keys:
update the entry in place if the key is present, append otherwise. -/
def dictSet : FieldDict → String → Option Str → FieldDict
  | [], k, v => [(k, v)]
  | (a, b) :: t, k, v =>
      if a = k then (a, v) :: t else (a, b) :: dictSet t k v

/-- Python `dict` lookup `d[k]`, with a missing key giving `none` (the
program only looks up keys created by `dict.fromkeys(CSV_FILE_HEADERS)`). -/
def dictLookup (d : FieldDict) (k : String) : Option Str :=
  match d.find? (fun p => p.1 == k) with
  | some p => p.2
  | none => none

/-- Errors the conversion can raise: the `AttributeError` from a failed
`FN` search, the `KeyError` of `CsvStructure.__setitem__`, and the
`UnicodeDecodeError` of `.decode('utf-8')`. -/
inductive ConvError where
  | fnNotFound
  | keyError
  | decodeError
deriving DecidableEq

/-- `CsvStructure`: the dict of fields plus the `quote_printed` flag stored
by `__init__`. -/
structure CsvStructure where
  fields : FieldDict
  quote_printed : Bool
deriving DecidableEq

/-- `CsvStructure.__init__`: all columns of the schema mapped to `None`. -/
def csvInit (qp : Bool) : CsvStructure :=
  { fields := CSV_FILE_HEADERS.map (fun k => (k, (none : Option Str))),
    quote_printed := qp }

/-- `CsvStructure.__setitem__`: store the value when the key is a schema
column, raise `KeyError` otherwise. -/
def setItem (r : CsvStructure) (k : String) (v : Str) : Except ConvError CsvStructure :=
  if k ∈ CSV_FILE_HEADERS then
    Except.ok { r with fields := dictSet r.fields k (some v) }
  else
    Except.error ConvError.keyError

/-- `CsvStructure.as_tuple` composed with the `None -> ""` conversion done by
`csv.writer.writerow`: the row values in fixed schema order. -/
def rowTuple (r : CsvStructure) : List String :=
  CSV_FILE_HEADERS.map (fun k => String.mk ((dictLookup r.fields k).getD []))

/-- `CsvCollection.to_file`, at the level of emitted CSV records: one header
row holding the schema names, then one row per collected item. -/
def to_file (items : List CsvStructure) : List (List String) :=
  CSV_FILE_HEADERS :: items.map rowTuple

/-- Python `str.replace('==', '=')`: left-to-right, non-overlapping. -/
def collapseEq : Str → Str
  | '=' :: '=' :: rest => '=' :: collapseEq rest
  | c :: rest => c :: collapseEq rest
  | [] => []

/-- Hexadecimal digit value, upper or lower case, as accepted by
`binascii.a2b_qp`. -/
def hexVal (c : Char) : Option Nat :=
  if '0' ≤ c ∧ c ≤ '9' then some (c.toNat - 48)
  else if 'A' ≤ c ∧ c ≤ 'F' then some (c.toNat - 55)
  else if 'a' ≤ c ∧ c ≤ 'f' then some (c.toNat - 87)
  else none

/-- `quopri.decodestring` (CPython `binascii.a2b_qp`, `header=False`) on an
ASCII string, producing the decoded byte sequence: `=XY` with two hex digits
becomes one byte, `=` before a line break is a soft break, `==` emits a
single `=`, a lone trailing `=` is dropped, and any other `=` is emitted
literally without consuming the following character. -/
def qpDecodeFuel : Nat → Str → List Nat
  | 0, _ => []
  | _ + 1, [] => []
  | _ + 1, ['='] => []
  | fuel + 1, '=' :: c :: c2 :: rest3 =>
      if c = '\n' then qpDecodeFuel fuel (c2 :: rest3)
      else if c = '\r' then
        qpDecodeFuel fuel (((c2 :: rest3).dropWhile (fun d => !(d == '\n'))).drop 1)
      else if c = '=' then 61 :: qpDecodeFuel fuel (c2 :: rest3)
      else
        match hexVal c, hexVal c2 with
        | some h1, some h2 => (16 * h1 + h2) :: qpDecodeFuel fuel rest3
        | _, _ => 61 :: qpDecodeFuel fuel (c :: c2 :: rest3)
  | fuel + 1, ['=', c] =>
      if c = '\n' then qpDecodeFuel fuel []
      else if c = '\r' then qpDecodeFuel fuel (([c].dropWhile (fun d => !(d == '\n'))).drop 1)
      else if c = '=' then 61 :: qpDecodeFuel fuel []
      else 61 :: qpDecodeFuel fuel [c]
  | fuel + 1, c :: rest => c.toNat :: qpDecodeFuel fuel rest

/-- The decoder applied with enough fuel: every step of the loop consumes at
least one input character, so the input length bounds the number of steps. -/
def qpDecodeBytes (s : Str) : List Nat := qpDecodeFuel s.length s

/-- Strict UTF-8 decoding of a byte sequence, as done by Python
`bytes.decode('utf-8')`: rejects stray continuation bytes, overlong forms,
surrogates and code points above `U+10FFFF`. -/
def utf8Decode : List Nat → Option (List Char)
  | [] => some []
  | b1 :: rest =>
    if b1 < 128 then (utf8Decode rest).map (fun cs => Char.ofNat b1 :: cs)
    else if 194 ≤ b1 ∧ b1 ≤ 223 then
      match rest with
      | b2 :: rest2 =>
        if 128 ≤ b2 ∧ b2 ≤ 191 then
          (utf8Decode rest2).map (fun cs => Char.ofNat ((b1 - 192) * 64 + (b2 - 128)) :: cs)
        else none
      | [] => none
    else if 224 ≤ b1 ∧ b1 ≤ 239 then
      match rest with
      | b2 :: b3 :: rest3 =>
        if (if b1 = 224 then 160 ≤ b2 ∧ b2 ≤ 191
            else if b1 = 237 then 128 ≤ b2 ∧ b2 ≤ 159
            else 128 ≤ b2 ∧ b2 ≤ 191) ∧ 128 ≤ b3 ∧ b3 ≤ 191 then
          (utf8Decode rest3).map
            (fun cs => Char.ofNat ((b1 - 224) * 4096 + (b2 - 128) * 64 + (b3 - 128)) :: cs)
        else none
      | _ => none
    else if 240 ≤ b1 ∧ b1 ≤ 244 then
      match rest with
      | b2 :: b3 :: b4 :: rest4 =>
        if (if b1 = 240 then 144 ≤ b2 ∧ b2 ≤ 191
            else if b1 = 244 then 128 ≤ b2 ∧ b2 ≤ 143
            else 128 ≤ b2 ∧ b2 ≤ 191) ∧ 128 ≤ b3 ∧ b3 ≤ 191 ∧ 128 ≤ b4 ∧ b4 ≤ 191 then
          (utf8Decode rest4).map
            (fun cs => Char.ofNat
              ((b1 - 240) * 262144 + (b2 - 128) * 4096 + (b3 - 128) * 64 + (b4 - 128)) :: cs)
        else none
      | _ => none
    else none

/-- The `name` property setter: with `quote_printed` set, collapse `==` to
`=`, apply quoted-printable decoding and decode the bytes as UTF-8; then
write the result directly into `__fields['First Name']` (bypassing
`__setitem__`). -/
def setName (r : CsvStructure) (nm : Str) : Except ConvError CsvStructure :=
  if r.quote_printed then
    match utf8Decode (qpDecodeBytes (collapseEq nm)) with
    | none => Except.error ConvError.decodeError
    | some dec => Except.ok { r with fields := dictSet r.fields ("First Name") (some dec) }
  else
    Except.ok { r with fields := dictSet r.fields ("First Name") (some nm) }

/-- `(self.__phone_cells[:offset][-1:] or (None,))[0]` of the `phones`
setter: the last element of the first `offset` phone cells, if any. -/
def cellForOffset (offset : Nat) : Option String :=
  (phoneCells.take offset).getLast?

/-- The loop body of the `phones` setter: `enumerate(phones_list, start=1)`
with each number stored through `__setitem__` when a cell name was found. -/
def setPhonesGo : CsvStructure → List Str → Nat → Except ConvError CsvStructure
  | r, [], _ => Except.ok r
  | r, p :: rest, offset =>
    match cellForOffset offset with
    | none => setPhonesGo r rest (offset + 1)
    | some cell => (setItem r cell p).bind (fun r2 => setPhonesGo r2 rest (offset + 1))

/-- The `phones` property setter. -/
def setPhones (r : CsvStructure) (ps : List Str) : Except ConvError CsvStructure :=
  setPhonesGo r ps 1

/-- The part of a string after its first `:`; this is what the greedy
`[^:]*` followed by `:` consumes in both regexes (the character class cannot
match `:`, so backtracking cannot choose a later colon). The returned suffix
is packaged with its length bound for termination of the scanners. -/
def dropThroughColon : (s : Str) → Option { r : Str // r.length < s.length }
  | [] => none
  | c :: rest =>
    if c = ':' then some ⟨rest, by simp⟩
    else
      match dropThroughColon rest with
      | none => none
      | some r => some ⟨r.1, by have h := r.2; simp only [List.length_cons]; omega⟩

/-- Split a string at its first newline: the characters before it and the
suffix after it.  This is what the lazy `(.+?)` followed by `\n` consumes in
the `TEL` regex (without `re.S`, `.` cannot match the newline, so the match
ends at the first newline). -/
def spanToNewline : (s : Str) → Option (Str × { r : Str // r.length < s.length })
  | [] => none
  | c :: rest =>
    if c = '\n' then some ([], ⟨rest, by simp⟩)
    else
      match spanToNewline rest with
      | none => none
      | some (v, r) =>
        some (c :: v, ⟨r.1, by have h := r.2; simp only [List.length_cons]; omega⟩)

/-- One match attempt of `re.compile(r'TEL[^:]*:(.+?)\n')` at the start of
`s`: literal `TEL`, everything up to and including the first colon, then a
nonempty run up to the first newline, which is the captured group.  Returns
the group and the suffix after the match. -/
def tryTel : (s : Str) → Option (Str × { r : Str // r.length < s.length })
  | a :: b :: c :: rest =>
    if a = 'T' ∧ b = 'E' ∧ c = 'L' then
      match dropThroughColon rest with
      | none => none
      | some r1 =>
        match spanToNewline r1.1 with
        | none => none
        | some (v, r2) =>
          if v = [] then none
          else
            some (v, ⟨r2.1, by
              have h1 := r1.2
              have h2 := r2.2
              simp only [List.length_cons]
              omega⟩)
    else none
  | _ => none

/-- `rgx_phone.findall`: scan left to right; at each position try a match,
on success emit the captured group and resume after the match, on failure
advance one character. -/
def telScanFuel : Nat → Str → List Str
  | 0, _ => []
  | _ + 1, [] => []
  | fuel + 1, x :: xs =>
    match tryTel (x :: xs) with
    | some (v, r) => v :: telScanFuel fuel r.1
    | none => telScanFuel fuel xs

/-- The scan with enough fuel: every step consumes at least one character,
so the input length bounds the number of steps. -/
def telScan (s : Str) : List Str := telScanFuel s.length s

/-- `extract_phones` of vcf2csv.py. -/
def extract_phones (vcard_item : Str) : List Str :=
  telScan vcard_item

/-- A character matched by `[\w;,=]` (ASCII reading of Python `\w`; the
modelled inputs contain no non-ASCII word characters). -/
def isClassChar (c : Char) : Bool :=
  c.isAlphanum || c == '_' || c == ';' || c == ',' || c == '='

/-- After one `[\w;,=]` character: the greedy rest of the run followed by a
colon.  Since `:` is in neither set, the maximal run is forced and the colon
must be the first non-class character. -/
def runThenColon : Str → Bool
  | [] => false
  | c :: rest => if c = ':' then true else if isClassChar c then runThenColon rest else false

/-- Whether the suffix starts with `[\w;,=]+:` — the lookahead closing the
`FN` capture (it sits right after a `\n` in the regex, so in context it
means "the next physical line starts a new field"). -/
def fieldStart : Str → Bool
  | [] => false
  | c :: rest => isClassChar c && runThenColon rest

/-- The lazy `(.+?)` of `rgx_fn` under `re.S`: grow the group (newlines
included) one character at a time; stop at the first newline that is
followed by `[\w;,=]+:`, provided the group is nonempty. `acc` holds the
group so far, reversed. -/
def fnGroup : Str → Str → Option Str
  | _, [] => none
  | acc, c :: rest =>
    if c = '\n' ∧ acc ≠ [] ∧ fieldStart rest = true then some acc.reverse
    else fnGroup (c :: acc) rest

/-- One match attempt of `re.compile(r'FN[^:]*:(.+?)\n[\w;,=]+:', re.S)` at
the start of `s`: literal `FN`, everything up to and including the first
colon, then the lazily grown group. -/
def fnTry : Str → Option Str
  | a :: b :: rest =>
    if a = 'F' ∧ b = 'N' then
      match dropThroughColon rest with
      | none => none
      | some r1 => fnGroup [] r1.1
    else none
  | _ => none

/-- `rgx_fn.search`: the first position at which a match attempt succeeds. -/
def fnScan : Str → Option Str
  | [] => none
  | x :: xs =>
    match fnTry (x :: xs) with
    | some g => some g
    | none => fnScan xs

/-- `extract_formatted_name` of vcf2csv.py: the captured group of the first
match with its newlines removed (`.replace('\n', '')`); `none` models the
`AttributeError` raised when `rgx_fn.search` returns `None`. -/
def extract_formatted_name (vcard_item : Str) : Option Str :=
  (fnScan vcard_item).map (fun g => g.filter (fun c => !(c == '\n')))

/-- `line.startswith('END:VCARD')`. -/
def isENDline (l : Str) : Bool :=
  ("END:VCARD".toList).isPrefixOf l

/-- The loop of `vcards_reader`: append each line to the buffer; a line
starting with `END:VCARD` emits the buffer as a block and resets it.  (The
`is_vcard` flag set on `BEGIN:VCARD` lines is never read, so it is not
modelled.)  Content left in the buffer when the input ends is discarded. -/
def readerGo : Str → List Str → List Str
  | _, [] => []
  | buf, l :: ls =>
    if isENDline l then (buf ++ l) :: readerGo [] ls
    else readerGo (buf ++ l) ls

/-- `vcards_reader` of vcf2csv.py, over the file's list of lines (each line
carries its trailing newline, as Python line iteration yields them). -/
def vcards_reader (lines : List Str) : List Str :=
  readerGo [] lines

/-- The per-vCard body of the loop in `vcf_to_csv`: extract the formatted
name and the phones, create a `CsvStructure`, set its name, then its
phones. -/
def buildRow (qp : Bool) (block : Str) : Except ConvError CsvStructure :=
  match extract_formatted_name block with
  | none => Except.error ConvError.fnNotFound
  | some fn =>
    (setName (csvInit qp) fn).bind (fun r1 => setPhones r1 (extract_phones block))

/-- The loop of `vcf_to_csv` building the `CsvCollection`: rows are appended
in block order and the first exception aborts the whole run. -/
def convertBlocks (qp : Bool) : List Str → Except ConvError (List CsvStructure)
  | [] => Except.ok []
  | b :: bs =>
    (buildRow qp b).bind (fun r => (convertBlocks qp bs).map (fun rs => r :: rs))

/-- `vcf_to_csv` of vcf2csv.py, from the input file's lines to the emitted
CSV records.  `Except.error` models an exception propagating out before
`to_file` is called, i.e. before any output is written. -/
def vcf_to_csv (qp : Bool) (lines : List Str) : Except ConvError (List (List String)) :=
  (convertBlocks qp (vcards_reader lines)).map to_file

/-- `line.startswith('BEGIN:VCARD')`. -/
def isBEGINline (l : Str) : Bool :=
  ("BEGIN:VCARD".toList).isPrefixOf l

/-- Build a block from newline-free logical lines: each line followed by its
terminating newline, all concatenated.  Used to state line-level properties
of the extractors. -/
def joinLines (ls : List Str) : Str :=
  (ls.map (fun l => l ++ ['\n'])).flatten

/-- Whether a string starts with the three characters `TEL`. -/
def startsTEL : Str → Bool
  | a :: b :: c :: _ => decide (a = 'T' ∧ b = 'E' ∧ c = 'L')
  | _ => false

/-- Whether `TEL` occurs as a substring anywhere. -/
def hasTEL : Str → Bool
  | [] => false
  | a :: rest => startsTEL (a :: rest) || hasTEL rest

/-- Whether a string starts with the two characters `FN`. -/
def startsFN : Str → Bool
  | a :: b :: _ => decide (a = 'F' ∧ b = 'N')
  | _ => false

/-- Whether `FN` occurs as a substring anywhere. -/
def hasFN : Str → Bool
  | [] => false
  | a :: rest => startsFN (a :: rest) || hasFN rest

/-- Whether the tail of a line (after a field name) contains a colon
followed by a nonempty remainder: the shape `params ++ ':' ++ value` with a
colon-free `params` and `value ≠ []`. -/
def telTailOk : Str → Bool
  | [] => false
  | c :: rest => if c = ':' then decide (rest ≠ []) else telTailOk rest

/-- Everything after the first colon of a line (the captured phone value for
a well-formed `TEL` line). -/
def telValue : Str → Str
  | [] => []
  | c :: rest => if c = ':' then rest else telValue rest

/-- One well-formed vCard segment of the input, as a list of raw lines
(each line carrying its trailing newline, as Python yields them): a
`BEGIN:VCARD` line, body lines, and an `END:VCARD` line. -/
structure VSeg where
  firstLine : Str
  bodyLines : List Str
  endLine : Str
deriving DecidableEq

/-- The raw lines of a segment. -/
def segLines (s : VSeg) : List Str :=
  s.firstLine :: (s.bodyLines ++ [s.endLine])

/-- The block text a segment should become: its lines concatenated. -/
def segBlock (s : VSeg) : Str :=
  (segLines s).flatten

/-- Well-formedness of a segment: it opens with `BEGIN:VCARD`, no body line
starts with `END:VCARD`, and it closes with an `END:VCARD` line. -/
abbrev segWF (s : VSeg) : Prop :=
  isBEGINline s.firstLine = true ∧
  (∀ l ∈ s.bodyLines, isENDline l = false) ∧
  isENDline s.endLine = true

/-- A concrete two-record input used to exercise the conversion end to
end. -/
def sampleSegs : List VSeg :=
  [VSeg.mk ("BEGIN:VCARD\n".toList)
    ["VERSION:2.1\n".toList, "FN:Alice\n".toList, "TEL:111\n".toList]
    ("END:VCARD\n".toList),
   VSeg.mk ("BEGIN:VCARD\n".toList) ["FN:Bob\n".toList] ("END:VCARD\n".toList)]

/-- The buffer contents left over after `vcards_reader` has consumed a list
of lines (content that would only be emitted by a later `END:VCARD`). -/
def leftoverBuf : Str → List Str → Str
  | buf, [] => buf
  | buf, l :: ls => leftoverBuf (if isENDline l then [] else buf ++ l) ls

/-! ### Dictionary lemmas -/

theorem dictLookup_dictSet_self (d : FieldDict) (k : String) (v : Option Str) :
    dictLookup (dictSet d k v) k = v := by
  induction d with
  | nil => simp [dictSet, dictLookup]
  | cons p t ih =>
    obtain ⟨a, b⟩ := p
    by_cases h : a = k
    · subst h
      simp [dictSet, dictLookup]
    · simpa [dictSet, dictLookup, h] using ih

theorem dictLookup_dictSet_other (d : FieldDict) (k k2 : String) (v : Option Str)
    (h : k2 ≠ k) : dictLookup (dictSet d k v) k2 = dictLookup d k2 := by
  induction d with
  | nil =>
    have h2 : ¬(k = k2) := fun hh => h hh.symm
    simp [dictSet, dictLookup, h2]
  | cons p t ih =>
    obtain ⟨a, b⟩ := p
    by_cases ha : a = k
    · subst ha
      have h2 : ¬(a = k2) := fun hh => h hh.symm
      simp [dictSet, dictLookup, h2]
    · by_cases ha2 : a = k2
      · subst ha2
        simp [dictSet, dictLookup, ha]
      · simpa [dictSet, dictLookup, ha, ha2] using ih

theorem dictLookup_fromkeys (ks : List String) (k : String) :
    dictLookup (ks.map (fun a => (a, (none : Option Str)))) k = none := by
  induction ks with
  | nil => simp [dictLookup]
  | cons a t ih =>
    by_cases h : a = k
    · subst h
      simp [dictLookup]
    · simpa [dictLookup, h] using ih

theorem dictLookup_csvInit (qp : Bool) (k : String) :
    dictLookup (csvInit qp).fields k = none :=
  dictLookup_fromkeys CSV_FILE_HEADERS k

/-! ### `__setitem__` lemmas -/

theorem setItem_mem (r : CsvStructure) (k : String) (v : Str)
    (h : k ∈ CSV_FILE_HEADERS) :
    setItem r k v = Except.ok { r with fields := dictSet r.fields k (some v) } := by
  simp [setItem, h]

theorem setItem_not_mem (r : CsvStructure) (k : String) (v : Str)
    (h : k ∉ CSV_FILE_HEADERS) :
    setItem r k v = Except.error ConvError.keyError := by
  simp [setItem, h]

/-! ### Phones setter lemmas -/

theorem phoneCells_getD_mem : ∀ j, j < 12 → phoneCells.getD j ("") ∈ CSV_FILE_HEADERS := by
  decide

theorem phoneCells_getD_injOn :
    ∀ a, a < 12 → ∀ b, b < 12 → a ≠ b → phoneCells.getD a ("") ≠ phoneCells.getD b ("") := by
  decide

theorem cellForOffset_eq (o : Nat) (h : 1 ≤ o) :
    cellForOffset o = some (phoneCells.getD (min o 12 - 1) "") := by
  rcases le_or_lt o 12 with h2 | h2
  · interval_cases o <;> decide
  · have hlen : phoneCells.length ≤ o := by
      have : phoneCells.length = 12 := by decide
      omega
    have hmin : min o 12 = 12 := by omega
    unfold cellForOffset
    rw [List.take_of_length_le hlen, hmin]
    decide

theorem setPhonesGo_spec (ps : List Str) : ∀ (off : Nat) (r : CsvStructure), 1 ≤ off →
    ∃ r2, setPhonesGo r ps off = Except.ok r2 ∧
      r2.quote_printed = r.quote_printed ∧
      (∀ k : String,
        (∀ i, i < ps.length → k ≠ phoneCells.getD (min (off + i) 12 - 1) "") →
        dictLookup r2.fields k = dictLookup r.fields k) ∧
      (off + ps.length ≤ 13 →
        ∀ i, i < ps.length →
          dictLookup r2.fields (phoneCells.getD (off + i - 1) "") = some (ps.getD i [])) := by
  induction ps with
  | nil =>
    intro off r _
    exact ⟨r, by simp [setPhonesGo], rfl, fun k _ => rfl, fun _ i hi => absurd hi (by simp)⟩
  | cons p ps' ih =>
    intro off r hoff
    have hc := cellForOffset_eq off hoff
    have hidx : min off 12 - 1 < 12 := by omega
    have hmem := phoneCells_getD_mem _ hidx
    set cell := phoneCells.getD (min off 12 - 1) "" with hcell
    set r1 : CsvStructure := { r with fields := dictSet r.fields cell (some p) } with hr1
    obtain ⟨r2, hgo, hqp, huntouched, hvals⟩ := ih (off + 1) r1 (by omega)
    have hstep : setPhonesGo r (p :: ps') off = setPhonesGo r1 ps' (off + 1) := by
      simp [setPhonesGo, hc, setItem_mem r cell p hmem, Except.bind, hr1]
    have hlen : (p :: ps').length = ps'.length + 1 := List.length_cons p ps'
    refine ⟨r2, by rw [hstep, hgo], by rw [hqp], ?_, ?_⟩
    · intro k hk
      have h0 : k ≠ cell := by
        have h00 := hk 0 (by rw [hlen]; omega)
        rw [Nat.add_zero, ← hcell] at h00
        exact h00
      have htail : ∀ i, i < ps'.length → k ≠ phoneCells.getD (min (off + 1 + i) 12 - 1) "" := by
        intro i hi
        have h01 := hk (i + 1) (by rw [hlen]; omega)
        have harith : off + (i + 1) = off + 1 + i := by omega
        rwa [harith] at h01
      rw [huntouched k htail, hr1]
      exact dictLookup_dictSet_other r.fields cell k (some p) h0
    · intro hle i hi
      rw [hlen] at hle
      match i with
      | 0 =>
        have hmin0 : min off 12 = off := by omega
        have hcell0 : phoneCells.getD (off + 0 - 1) "" = cell := by
          rw [hcell, hmin0, Nat.add_zero]
        have hcelluntouched : ∀ i', i' < ps'.length →
            cell ≠ phoneCells.getD (min (off + 1 + i') 12 - 1) "" := by
          intro i' hi'
          have hmin' : min (off + 1 + i') 12 = off + 1 + i' := by omega
          rw [hmin', hcell, hmin0]
          exact phoneCells_getD_injOn _ (by omega) _ (by omega) (by omega)
        rw [hcell0, huntouched cell hcelluntouched, hr1]
        show dictLookup (dictSet r.fields cell (some p)) cell = some ((p :: ps').getD 0 [])
        rw [dictLookup_dictSet_self, List.getD_cons_zero]
      | i' + 1 =>
        have h02 := hvals (by omega) i' (by rw [hlen] at hi; omega)
        have harith : off + 1 + i' - 1 = off + (i' + 1) - 1 := by omega
        rw [harith] at h02
        rw [List.getD_cons_succ]
        exact h02

theorem setPhones_ok (r : CsvStructure) (ps : List Str) :
    ∃ r2, setPhones r ps = Except.ok r2 := by
  obtain ⟨r2, h, _⟩ := setPhonesGo_spec ps 1 r (by omega)
  exact ⟨r2, h⟩

/-! ### `extract_phones` lemmas -/

theorem telScanFuel_congr : ∀ (f1 : Nat) (s : Str) (f2 : Nat), s.length ≤ f1 → s.length ≤ f2 →
    telScanFuel f1 s = telScanFuel f2 s := by
  intro f1
  induction f1 with
  | zero =>
    intro s f2 h1 _
    have hs : s = [] := List.eq_nil_of_length_eq_zero (Nat.le_zero.mp h1)
    subst hs
    cases f2 <;> rfl
  | succ f1' ih =>
    intro s f2 h1 h2
    cases s with
    | nil => cases f2 <;> rfl
    | cons x xs =>
      cases f2 with
      | zero => simp at h2
      | succ f2' =>
        have hl1 : xs.length + 1 ≤ f1' + 1 := by simpa using h1
        have hl2 : xs.length + 1 ≤ f2' + 1 := by simpa using h2
        cases ht : tryTel (x :: xs) with
        | none =>
          simp only [telScanFuel, ht]
          exact ih xs f2' (by omega) (by omega)
        | some pr =>
          obtain ⟨v, r⟩ := pr
          have hr : r.1.length < xs.length + 1 := by simpa using r.2
          simp only [telScanFuel, ht]
          rw [ih r.1 f2' (by omega) (by omega)]

theorem telScan_cons (x : Char) (xs : Str) :
    telScan (x :: xs) =
      match tryTel (x :: xs) with
      | some (v, r) => v :: telScan r.1
      | none => telScan xs := by
  show telScanFuel (x :: xs).length (x :: xs) = _
  simp only [List.length_cons, telScanFuel]
  cases ht : tryTel (x :: xs) with
  | none =>
    simp only [ht]
    rfl
  | some pr =>
    obtain ⟨v, r⟩ := pr
    simp only [ht]
    have hr : r.1.length < xs.length + 1 := by simpa using r.2
    rw [telScanFuel_congr xs.length r.1 r.1.length (by omega) le_rfl]
    rfl

theorem dropThroughColon_append (p r : Str) (hp : ':' ∉ p) :
    ∃ h, dropThroughColon (p ++ ':' :: r) = some ⟨r, h⟩ := by
  induction p with
  | nil =>
    exact ⟨by simp, by simp [dropThroughColon]⟩
  | cons c p' ih =>
    have hc : ¬(c = ':') := fun hh => hp (by rw [hh]; exact List.mem_cons_self _ _)
    obtain ⟨h, ih'⟩ := ih (fun hm => hp (List.mem_cons_of_mem _ hm))
    refine ⟨?_, ?_⟩
    · simp only [List.cons_append, List.length_cons, List.length_append] at h ⊢
      omega
    · simp [dropThroughColon, hc, ih']

theorem spanToNewline_append (v r : Str) (hv : '\n' ∉ v) :
    ∃ h, spanToNewline (v ++ '\n' :: r) = some (v, ⟨r, h⟩) := by
  induction v with
  | nil =>
    exact ⟨by simp, by simp [spanToNewline]⟩
  | cons c v' ih =>
    have hc : ¬(c = '\n') := fun hh => hv (by rw [hh]; exact List.mem_cons_self _ _)
    obtain ⟨h, ih'⟩ := ih (fun hm => hv (List.mem_cons_of_mem _ hm))
    refine ⟨?_, ?_⟩
    · simp only [List.cons_append, List.length_cons, List.length_append] at h ⊢
      omega
    · simp [spanToNewline, hc, ih']

theorem tryTel_telLine (params v r : Str) (hp : ':' ∉ params) (hv : '\n' ∉ v)
    (hvne : v ≠ []) :
    ∃ h, tryTel (('T' :: 'E' :: 'L' :: (params ++ ':' :: v)) ++ '\n' :: r) =
      some (v, ⟨r, h⟩) := by
  have hshape : ('T' :: 'E' :: 'L' :: (params ++ ':' :: v)) ++ '\n' :: r =
      'T' :: 'E' :: 'L' :: (params ++ ':' :: (v ++ '\n' :: r)) := by
    simp
  obtain ⟨h1, hd⟩ := dropThroughColon_append params (v ++ '\n' :: r) hp
  obtain ⟨h2, hs⟩ := spanToNewline_append v r hv
  rw [hshape]
  refine ⟨?_, ?_⟩
  · simp only [List.length_cons, List.length_append] at h1 h2 ⊢
    omega
  · simp [tryTel, hd, hs, hvne]

theorem tryTel_none (s : Str) (h : startsTEL s = false) : tryTel s = none := by
  match s with
  | [] => rfl
  | [a] => rfl
  | [a, b] => rfl
  | a :: b :: c :: rest =>
    simp only [startsTEL, decide_eq_false_iff_not] at h
    simp [tryTel, h]

theorem startsTEL_eq_false_of_head (c : Char) (xs : Str) (h : c ≠ 'T') :
    startsTEL (c :: xs) = false := by
  match xs with
  | [] => rfl
  | [b] => rfl
  | b :: d :: t =>
    simp only [startsTEL, decide_eq_false_iff_not]
    intro hh
    exact h hh.1

theorem startsTEL_append_nl (l rest : Str) (h : startsTEL l = false) :
    startsTEL (l ++ '\n' :: rest) = false := by
  match l with
  | [] => exact startsTEL_eq_false_of_head _ _ (by decide)
  | [a] =>
    cases rest with
    | nil => rfl
    | cons d t =>
      simp only [List.cons_append, List.nil_append, startsTEL, decide_eq_false_iff_not]
      intro hh
      exact absurd hh.2.1 (by decide)
  | [a, b] =>
    simp only [List.cons_append, List.nil_append, startsTEL, decide_eq_false_iff_not]
    intro hh
    exact absurd hh.2.2 (by decide)
  | a :: b :: c :: t =>
    simpa only [List.cons_append, startsTEL] using h

theorem hasTEL_tail (c : Char) (l : Str) (h : hasTEL (c :: l) = false) :
    hasTEL l = false := by
  simp only [hasTEL, Bool.or_eq_false_iff] at h
  exact h.2

theorem hasTEL_head (c : Char) (l : Str) (h : hasTEL (c :: l) = false) :
    startsTEL (c :: l) = false := by
  simp only [hasTEL, Bool.or_eq_false_iff] at h
  exact h.1

theorem telScan_skip (l rest : Str) (hTEL : hasTEL l = false) :
    telScan (l ++ '\n' :: rest) = telScan rest := by
  induction l with
  | nil =>
    have hn := tryTel_none ('\n' :: rest) (startsTEL_eq_false_of_head _ _ (by decide))
    show telScan ('\n' :: rest) = telScan rest
    rw [telScan_cons]
    simp only [hn]
  | cons c l' ih =>
    have hs : startsTEL ((c :: l') ++ '\n' :: rest) = false :=
      startsTEL_append_nl _ _ (hasTEL_head c l' hTEL)
    have hn := tryTel_none _ hs
    rw [List.cons_append]
    rw [List.cons_append] at hn
    rw [telScan_cons]
    simp only [hn]
    exact ih (hasTEL_tail c l' hTEL)

theorem telScan_telLine (params v rest : Str) (hp : ':' ∉ params) (hv : '\n' ∉ v)
    (hvne : v ≠ []) :
    telScan (('T' :: 'E' :: 'L' :: (params ++ ':' :: v)) ++ '\n' :: rest) =
      v :: telScan rest := by
  obtain ⟨h, ht⟩ := tryTel_telLine params v rest hp hv hvne
  simp only [List.cons_append] at ht ⊢
  rw [telScan_cons]
  simp only [ht]

theorem telTailOk_decomp (t : Str) (h : telTailOk t = true) :
    ∃ p v, t = p ++ ':' :: v ∧ ':' ∉ p ∧ v ≠ [] := by
  induction t with
  | nil => simp [telTailOk] at h
  | cons c t' ih =>
    by_cases hc : c = ':'
    · subst hc
      simp [telTailOk] at h
      exact ⟨[], t', by simp, by simp, h⟩
    · simp only [telTailOk, hc, if_false] at h
      obtain ⟨p, v, ht, hp, hv⟩ := ih h
      refine ⟨c :: p, v, by simp [ht], ?_, hv⟩
      intro hm
      rcases List.mem_cons.mp hm with h1 | h1
      · exact hc h1.symm
      · exact hp h1

theorem startsTEL_decomp (l : Str) (h : startsTEL l = true) :
    ∃ t, l = 'T' :: 'E' :: 'L' :: t := by
  match l with
  | [] => simp [startsTEL] at h
  | [a] => simp [startsTEL] at h
  | [a, b] => simp [startsTEL] at h
  | a :: b :: c :: t =>
    simp only [startsTEL, decide_eq_true_eq] at h
    obtain ⟨h1, h2, h3⟩ := h
    exact ⟨t, by rw [h1, h2, h3]⟩

theorem telValue_append (p v : Str) (hp : ':' ∉ p) : telValue (p ++ ':' :: v) = v := by
  induction p with
  | nil => simp [telValue]
  | cons c p' ih =>
    have hc : ¬(c = ':') := fun hh => hp (by rw [hh]; exact List.mem_cons_self _ _)
    simp only [List.cons_append, telValue, hc, if_false]
    exact ih (fun hm => hp (List.mem_cons_of_mem _ hm))

theorem telValue_telLine (p v : Str) (hp : ':' ∉ p) :
    telValue ('T' :: 'E' :: 'L' :: (p ++ ':' :: v)) = v := by
  have h1 : ¬(('T' : Char) = ':') := by decide
  have h2 : ¬(('E' : Char) = ':') := by decide
  have h3 : ¬(('L' : Char) = ':') := by decide
  simp only [telValue, h1, h2, h3, if_false]
  exact telValue_append p v hp

theorem hasTEL_eq_false_parts (l : Str) (h1 : startsTEL l = false)
    (h2 : hasTEL (l.drop 1) = false) : hasTEL l = false := by
  cases l with
  | nil => rfl
  | cons c l' =>
    simp only [List.drop_succ_cons, List.drop_zero] at h2
    simp [hasTEL, h1, h2]

/-- Line-level description of `extract_phones`: on a block assembled from
newline-free lines in which `TEL` occurs only at the start of a line and
every `TEL` line has a colon and a nonempty value, the scan returns exactly
the values of the `TEL` lines, in order. -/
theorem extract_phones_lines (ls : List Str)
    (hNL : ∀ l ∈ ls, '\n' ∉ l)
    (hMid : ∀ l ∈ ls, hasTEL (l.drop 1) = false)
    (hWF : ∀ l ∈ ls, startsTEL l = true → telTailOk (l.drop 3) = true) :
    extract_phones (joinLines ls) = (ls.filter startsTEL).map telValue := by
  induction ls with
  | nil => rfl
  | cons l ls' ih =>
    have ih' := ih (fun x hx => hNL x (List.mem_cons_of_mem _ hx))
      (fun x hx => hMid x (List.mem_cons_of_mem _ hx))
      (fun x hx => hWF x (List.mem_cons_of_mem _ hx))
    have hjoin : joinLines (l :: ls') = l ++ '\n' :: joinLines ls' := by
      simp [joinLines]
    by_cases hs : startsTEL l = true
    · obtain ⟨t, hlt⟩ := startsTEL_decomp l hs
      have hwt : telTailOk t = true := by
        have := hWF l (List.mem_cons_self _ _) hs
        rwa [hlt, List.drop_succ_cons, List.drop_succ_cons, List.drop_succ_cons,
          List.drop_zero] at this
      obtain ⟨p, v, htv, hpc, hvne⟩ := telTailOk_decomp t hwt
      have hvnl : '\n' ∉ v := by
        intro hm
        exact hNL l (List.mem_cons_self _ _) (by rw [hlt, htv]; simp [hm])
      show telScan (joinLines (l :: ls')) = _
      rw [hjoin, List.filter_cons_of_pos hs, List.map_cons, hlt, htv,
        telScan_telLine p v (joinLines ls') hpc hvnl hvne, telValue_telLine p v hpc]
      exact congrArg (v :: ·) ih'
    · have hsf : startsTEL l = false := Bool.eq_false_iff.mpr hs
      have hTEL : hasTEL l = false :=
        hasTEL_eq_false_parts l hsf (hMid l (List.mem_cons_self _ _))
      show telScan (joinLines (l :: ls')) = _
      rw [hjoin, telScan_skip l (joinLines ls') hTEL]
      rw [List.filter_cons_of_neg (by rw [hsf]; exact Bool.false_ne_true)]
      exact ih'

/-! ### `extract_formatted_name` lemmas -/

theorem runThenColon_append (l r : Str) (h : '\n' ∉ l) :
    runThenColon (l ++ '\n' :: r) = runThenColon l := by
  induction l with
  | nil =>
    have h1 : ¬(('\n' : Char) = ':') := by decide
    have h2 : isClassChar '\n' = false := by decide
    simp [runThenColon, h1, h2]
  | cons c l' ih =>
    simp only [List.cons_append, runThenColon, List.append_eq]
    rw [ih (fun hm => h (List.mem_cons_of_mem _ hm))]

theorem fieldStart_append (l r : Str) (h : '\n' ∉ l) :
    fieldStart (l ++ '\n' :: r) = fieldStart l := by
  cases l with
  | nil =>
    have h2 : isClassChar '\n' = false := by decide
    simp [fieldStart, h2]
  | cons c l' =>
    simp only [List.cons_append, fieldStart]
    rw [runThenColon_append l' r (fun hm => h (List.mem_cons_of_mem _ hm))]

theorem fnGroup_walk (x : Str) (hx : '\n' ∉ x) :
    ∀ (acc rest : Str), fnGroup acc (x ++ rest) = fnGroup (x.reverse ++ acc) rest := by
  induction x with
  | nil => intro acc rest; simp
  | cons c x' ih =>
    intro acc rest
    have hc : ¬(c = '\n') := fun hh => hx (by rw [hh]; exact List.mem_cons_self _ _)
    simp only [List.cons_append, fnGroup, hc, false_and, if_false, List.append_eq]
    rw [ih (fun hm => hx (List.mem_cons_of_mem _ hm)) (c :: acc) rest]
    simp

theorem fnGroup_across (between : List Str) :
    ∀ (acc : Str), acc ≠ [] →
    (∀ b ∈ between, '\n' ∉ b ∧ fieldStart b = false) →
    ∀ (u rest : Str), '\n' ∉ u → fieldStart u = true →
    fnGroup acc ('\n' :: (joinLines between ++ (u ++ '\n' :: rest))) =
      some (acc.reverse ++ (between.map (fun b => '\n' :: b)).flatten) := by
  induction between with
  | nil =>
    intro acc hacc _ u rest hu huf
    have hf : fieldStart (u ++ '\n' :: rest) = true := by
      rw [fieldStart_append u rest hu]; exact huf
    simp [joinLines, fnGroup, hacc, hf]
  | cons b bs ih =>
    intro acc hacc hbet u rest hu huf
    have hb := hbet b (List.mem_cons_self _ _)
    have hshape : joinLines (b :: bs) ++ (u ++ '\n' :: rest) =
        b ++ ('\n' :: (joinLines bs ++ (u ++ '\n' :: rest))) := by
      simp [joinLines]
    have hfb : fieldStart (b ++ '\n' :: (joinLines bs ++ (u ++ '\n' :: rest))) = false := by
      rw [fieldStart_append b _ hb.1]; exact hb.2
    rw [hshape]
    simp only [fnGroup]
    rw [if_neg (by
      intro hh
      rw [hfb] at hh
      exact absurd hh.2.2 (by simp))]
    rw [fnGroup_walk b hb.1 ('\n' :: acc) _]
    have ih' := ih (b.reverse ++ '\n' :: acc) (by simp)
      (fun x hx => hbet x (List.mem_cons_of_mem _ hx)) u rest hu huf
    rw [ih']
    simp

theorem fnTry_fnLine (params v tail : Str) (hp : ':' ∉ params) (hv : '\n' ∉ v) :
    fnTry (('F' :: 'N' :: (params ++ ':' :: v)) ++ '\n' :: tail) =
      fnGroup v.reverse ('\n' :: tail) := by
  obtain ⟨h1, hd⟩ := dropThroughColon_append params (v ++ '\n' :: tail) hp
  have hshape : ('F' :: 'N' :: (params ++ ':' :: v)) ++ '\n' :: tail =
      'F' :: 'N' :: (params ++ ':' :: (v ++ '\n' :: tail)) := by simp
  rw [hshape]
  simp only [fnTry, and_self, if_true, hd]
  rw [fnGroup_walk v hv [] ('\n' :: tail)]
  simp

theorem fnTry_none (s : Str) (h : startsFN s = false) : fnTry s = none := by
  match s with
  | [] => rfl
  | [a] => rfl
  | a :: b :: rest =>
    simp only [startsFN, decide_eq_false_iff_not] at h
    simp [fnTry, h]

theorem startsFN_eq_false_of_head (c : Char) (xs : Str) (h : c ≠ 'F') :
    startsFN (c :: xs) = false := by
  match xs with
  | [] => rfl
  | b :: t =>
    simp only [startsFN, decide_eq_false_iff_not]
    intro hh
    exact h hh.1

theorem startsFN_append_nl (l rest : Str) (h : startsFN l = false) :
    startsFN (l ++ '\n' :: rest) = false := by
  match l with
  | [] => exact startsFN_eq_false_of_head _ _ (by decide)
  | [a] =>
    simp only [List.cons_append, List.nil_append, startsFN, decide_eq_false_iff_not]
    intro hh
    exact absurd hh.2 (by decide)
  | a :: b :: t =>
    simpa only [List.cons_append, startsFN] using h

theorem hasFN_tail (c : Char) (l : Str) (h : hasFN (c :: l) = false) :
    hasFN l = false := by
  simp only [hasFN, Bool.or_eq_false_iff] at h
  exact h.2

theorem hasFN_head (c : Char) (l : Str) (h : hasFN (c :: l) = false) :
    startsFN (c :: l) = false := by
  simp only [hasFN, Bool.or_eq_false_iff] at h
  exact h.1

theorem fnScan_skip (l rest : Str) (hFN : hasFN l = false) :
    fnScan (l ++ '\n' :: rest) = fnScan rest := by
  induction l with
  | nil =>
    have hn := fnTry_none ('\n' :: rest) (startsFN_eq_false_of_head _ _ (by decide))
    simp [fnScan, hn]
  | cons c l' ih =>
    have hs : startsFN ((c :: l') ++ '\n' :: rest) = false :=
      startsFN_append_nl _ _ (hasFN_head c l' hFN)
    have hn := fnTry_none _ hs
    rw [List.cons_append]
    rw [List.cons_append] at hn
    simp only [fnScan, hn]
    exact ih (hasFN_tail c l' hFN)

theorem filter_no_nl (v : Str) (hv : '\n' ∉ v) :
    v.filter (fun c => !(c == '\n')) = v := by
  rw [List.filter_eq_self]
  intro a ha
  simp only [Bool.not_eq_true', beq_eq_false_iff_ne, ne_eq]
  intro h
  exact hv (h ▸ ha)

theorem filter_nl_join (between : List Str) (h : ∀ b ∈ between, '\n' ∉ b) :
    ((between.map (fun b => '\n' :: b)).flatten).filter (fun c => !(c == '\n')) =
      between.flatten := by
  induction between with
  | nil => rfl
  | cons b bs ih =>
    have hb := h b (List.mem_cons_self _ _)
    have ih' := ih (fun x hx => h x (List.mem_cons_of_mem _ hx))
    simp only [List.map_cons, List.flatten_cons, List.filter_append, List.filter_cons,
      List.flatten_cons]
    rw [filter_no_nl b hb, ih']
    simp

theorem joinLines_append (xs ys : List Str) :
    joinLines (xs ++ ys) = joinLines xs ++ joinLines ys := by
  simp [joinLines]

/-- Line-level description of `extract_formatted_name`: on a block assembled
from newline-free lines where `FN` occurs in no line before the `FN` line,
the `FN` line is `FN<params>:<value>` with a colon-free `params` and a
nonempty value, the following lines up to the next field line are not field
lines, and a field line `u` follows, the extractor returns the value
together with the continuation lines, newlines stripped. -/
theorem extract_fn_lines (ws : List Str) (params v : Str) (between : List Str)
    (u : Str) (after : List Str)
    (hws : ∀ l ∈ ws, '\n' ∉ l ∧ hasFN l = false)
    (hp : ':' ∉ params) (hv : '\n' ∉ v) (hvne : v ≠ [])
    (hbet : ∀ b ∈ between, '\n' ∉ b ∧ fieldStart b = false)
    (hu : '\n' ∉ u) (huf : fieldStart u = true) :
    extract_formatted_name
        (joinLines (ws ++ ('F' :: 'N' :: (params ++ ':' :: v)) :: (between ++ u :: after))) =
      some (v ++ between.flatten) := by
  induction ws with
  | nil =>
    have hT : joinLines (('F' :: 'N' :: (params ++ ':' :: v)) :: (between ++ u :: after)) =
        ('F' :: 'N' :: (params ++ ':' :: v)) ++ '\n' ::
          (joinLines between ++ (u ++ '\n' :: joinLines after)) := by
      simp [joinLines]
    have htry := fnTry_fnLine params v
      (joinLines between ++ (u ++ '\n' :: joinLines after)) hp hv
    have hacross := fnGroup_across between v.reverse (by simpa using hvne) hbet u
      (joinLines after) hu huf
    rw [List.nil_append, hT]
    show (fnScan _).map _ = _
    rw [List.cons_append]
    rw [List.cons_append] at htry
    simp only [fnScan, htry, hacross, List.reverse_reverse, Option.map_some']
    rw [List.filter_append, filter_no_nl v hv,
      filter_nl_join between (fun b hb => (hbet b hb).1)]
  | cons w ws' ih =>
    have hw := hws w (List.mem_cons_self _ _)
    have hjoin : joinLines ((w :: ws') ++ ('F' :: 'N' :: (params ++ ':' :: v)) ::
        (between ++ u :: after)) =
        w ++ '\n' :: joinLines (ws' ++ ('F' :: 'N' :: (params ++ ':' :: v)) ::
          (between ++ u :: after)) := by
      simp [joinLines]
    show (fnScan _).map _ = _
    rw [hjoin, fnScan_skip w _ hw.2]
    exact ih (fun x hx => hws x (List.mem_cons_of_mem _ hx))

/-! ### `vcards_reader` lemmas -/

theorem readerGo_noEnd (ls : List Str) (h : ∀ l ∈ ls, isENDline l = false) :
    ∀ buf, readerGo buf ls = [] := by
  induction ls with
  | nil => intro buf; rfl
  | cons l ls' ih =>
    intro buf
    have hl := h l (List.mem_cons_self _ _)
    simp only [readerGo, hl, Bool.false_eq_true, if_false]
    exact ih (fun x hx => h x (List.mem_cons_of_mem _ hx)) _

theorem readerGo_append (xs : List Str) : ∀ (ys : List Str) (buf : Str),
    readerGo buf (xs ++ ys) = readerGo buf xs ++ readerGo (leftoverBuf buf xs) ys := by
  induction xs with
  | nil => intro ys buf; rfl
  | cons l xs' ih =>
    intro ys buf
    by_cases hl : isENDline l = true
    · simp only [List.cons_append, readerGo, leftoverBuf, hl, if_true, List.append_eq]
      rw [ih ys []]
    · have hl' : isENDline l = false := Bool.eq_false_iff.mpr hl
      simp only [List.cons_append, readerGo, leftoverBuf, hl', Bool.false_eq_true, if_false,
        List.append_eq]
      rw [ih ys (buf ++ l)]

theorem readerGo_body (body : List Str) (h : ∀ l ∈ body, isENDline l = false) :
    ∀ (rest : List Str) (buf : Str),
    readerGo buf (body ++ rest) = readerGo (buf ++ body.flatten) rest := by
  induction body with
  | nil => intro rest buf; simp
  | cons l b' ih =>
    intro rest buf
    have hl := h l (List.mem_cons_self _ _)
    simp only [List.cons_append, readerGo, hl, Bool.false_eq_true, if_false, List.append_eq]
    rw [ih (fun x hx => h x (List.mem_cons_of_mem _ hx)) rest (buf ++ l)]
    simp

theorem isBEGIN_not_END (l : Str) (h : isBEGINline l = true) : isENDline l = false := by
  cases l with
  | nil => exact absurd h (by decide)
  | cons c t =>
    have h2 : (("BEGIN:VCARD".toList).isPrefixOf (c :: t)) = true := h
    rw [show "BEGIN:VCARD".toList = 'B' :: "EGIN:VCARD".toList from rfl] at h2
    simp only [List.isPrefixOf, Bool.and_eq_true, beq_iff_eq] at h2
    have hB : c = 'B' := h2.1.symm
    subst hB
    show (("END:VCARD".toList).isPrefixOf ('B' :: t)) = false
    rw [show "END:VCARD".toList = 'E' :: "ND:VCARD".toList from rfl]
    simp only [List.isPrefixOf, Bool.and_eq_false_iff]
    left
    decide

theorem vcards_reader_segs (segs : List VSeg) (hwf : ∀ s ∈ segs, segWF s) :
    vcards_reader ((segs.map segLines).flatten) = segs.map segBlock := by
  induction segs with
  | nil => rfl
  | cons s segs' ih =>
    have hs := hwf s (List.mem_cons_self _ _)
    have ih' := ih (fun x hx => hwf x (List.mem_cons_of_mem _ hx))
    unfold vcards_reader at ih' ⊢
    simp only [List.map_cons, List.flatten_cons]
    rw [show segLines s ++ (segs'.map segLines).flatten =
      s.firstLine :: ((s.bodyLines ++ [s.endLine]) ++ (segs'.map segLines).flatten)
      from by simp [segLines]]
    simp only [readerGo, isBEGIN_not_END s.firstLine hs.1, Bool.false_eq_true, if_false]
    rw [List.append_assoc, List.singleton_append,
      readerGo_body s.bodyLines hs.2.1 (s.endLine :: (segs'.map segLines).flatten) _]
    simp only [readerGo, hs.2.2, if_true]
    rw [ih']
    have hblock : segBlock s = ([] ++ s.firstLine ++ s.bodyLines.flatten) ++ s.endLine := by
      simp [segBlock, segLines]
    rw [hblock]

/-! ### Conversion pipeline lemmas -/

theorem buildRow_none (qp : Bool) (b : Str) (h : extract_formatted_name b = none) :
    buildRow qp b = Except.error ConvError.fnNotFound := by
  simp [buildRow, h]

theorem buildRow_ok_ne_none (qp : Bool) (b : Str) (r : CsvStructure)
    (h : buildRow qp b = Except.ok r) : extract_formatted_name b ≠ none := by
  intro hn
  rw [buildRow_none qp b hn] at h
  exact absurd h (by simp)

theorem buildRow_false_ok (b : Str) (h : (extract_formatted_name b).isSome = true) :
    ∃ r, buildRow false b = Except.ok r := by
  obtain ⟨fn, hfn⟩ := Option.isSome_iff_exists.mp h
  obtain ⟨r2, h2⟩ := setPhones_ok
    { csvInit false with fields := dictSet (csvInit false).fields ("First Name") (some fn) }
    (extract_phones b)
  refine ⟨r2, ?_⟩
  simp only [buildRow, hfn]
  rw [show setName (csvInit false) fn = Except.ok { csvInit false with
      fields := dictSet (csvInit false).fields ("First Name") (some fn) } from rfl]
  simpa [Except.bind] using h2

theorem convertBlocks_ok (blocks : List Str)
    (hall : ∀ b ∈ blocks, ∃ r, buildRow false b = Except.ok r) :
    ∃ rows, convertBlocks false blocks = Except.ok rows ∧
      rows.length = blocks.length ∧
      ∀ i, rows.get? i = (blocks.get? i).bind (fun b => (buildRow false b).toOption) := by
  induction blocks with
  | nil => exact ⟨[], rfl, rfl, fun i => by cases i <;> rfl⟩
  | cons b bs ih =>
    obtain ⟨r, hr⟩ := hall b (List.mem_cons_self _ _)
    obtain ⟨rows, hrows, hlen, hget⟩ := ih (fun x hx => hall x (List.mem_cons_of_mem _ hx))
    refine ⟨r :: rows, ?_, by simp [hlen], ?_⟩
    · simp [convertBlocks, hr, hrows, Except.bind, Except.map]
    · intro i
      cases i with
      | zero => simp [hr, Except.toOption]
      | succ j => simpa using hget j

theorem convertBlocks_error (qp : Bool) (blocks : List Str)
    (h : ∃ b ∈ blocks, extract_formatted_name b = none) :
    ∃ e, convertBlocks qp blocks = Except.error e := by
  induction blocks with
  | nil => obtain ⟨b, hb, _⟩ := h; simp at hb
  | cons b bs ih =>
    cases hbr : buildRow qp b with
    | error e => exact ⟨e, by simp [convertBlocks, hbr, Except.bind]⟩
    | ok r =>
      obtain ⟨b0, hb0, hex⟩ := h
      have hb0bs : b0 ∈ bs := by
        rcases List.mem_cons.mp hb0 with h1 | h1
        · subst h1; exact absurd hex (buildRow_ok_ne_none qp b0 r hbr)
        · exact h1
      obtain ⟨e, he⟩ := ih ⟨b0, hb0bs, hex⟩
      exact ⟨e, by simp [convertBlocks, hbr, he, Except.bind, Except.map]⟩

theorem convertBlocks_fnNotFound (blocks : List Str)
    (h : ∃ b ∈ blocks, extract_formatted_name b = none) :
    convertBlocks false blocks = Except.error ConvError.fnNotFound := by
  induction blocks with
  | nil => obtain ⟨b, hb, _⟩ := h; simp at hb
  | cons b bs ih =>
    cases hex : extract_formatted_name b with
    | none => simp [convertBlocks, buildRow_none false b hex, Except.bind]
    | some fn =>
      obtain ⟨r, hr⟩ := buildRow_false_ok b (by simp [hex])
      obtain ⟨b0, hb0, hex0⟩ := h
      have hb0bs : b0 ∈ bs := by
        rcases List.mem_cons.mp hb0 with h1 | h1
        · subst h1; rw [hex] at hex0; simp at hex0
        · exact h1
      have hbs := ih ⟨b0, hb0bs, hex0⟩
      simp [convertBlocks, hr, hbs, Except.bind, Except.map]

/-! ### Claim theorems -/

/-- C1: the spec claims that phone numbers beyond the 12th are silently
discarded (assigning past the end of the phone-column list is a no-op), so
that no phone column depends on numbers 13 onward.  The code disagrees:
`self.__phone_cells[:offset][-1:]` is nonempty for every `offset ≥ 1`, so
the `None` guard of the `phones` setter is dead code and every number
beyond the 12th is written to the last cell of the priority list.  With 13
numbers the thirteenth ends up in the Assistant's Phone column, overwriting
the twelfth — and changing only the thirteenth number changes that column's
value, so the column does depend on it. -/
theorem c1_thirteenth_phone_reaches_assistants_phone :
    (setPhones (csvInit false) (["p01", "p02", "p03", "p04", "p05", "p06",
        "p07", "p08", "p09", "p10", "p11", "p12", "p13"].map String.toList)).map
      (fun r => dictLookup r.fields assistantsPhone) = Except.ok (some ("p13".toList)) ∧
    (setPhones (csvInit false) (["p01", "p02", "p03", "p04", "p05", "p06",
        "p07", "p08", "p09", "p10", "p11", "p12", "q13"].map String.toList)).map
      (fun r => dictLookup r.fields assistantsPhone) = Except.ok (some ("q13".toList)) :=
  ⟨rfl, rfl⟩

/-- C2, counterexample: the claim fixes the schema at 55 names, but the
header row emitted by `to_file` (for any input, here the empty collection)
carries 56 column names. -/
theorem c2_counterexample_header_has_56_names :
    (to_file []).get? 0 = some CSV_FILE_HEADERS ∧ CSV_FILE_HEADERS.length ≠ 55 :=
  ⟨rfl, by decide⟩

/-- C2 (amended: the fixed schema has 56 names, not 55): the writer emits
exactly one header row, first, whose column sequence is the fixed 56-name
schema spelled out below, identical for every input; each data row follows
it, its i-th value drawn from the i-th schema column of the item. -/
theorem c2_header_and_row_order (items : List CsvStructure) :
    (to_file items).get? 0 =
      some ["Title", "First Name", "Middle Name", "Last Name", "Suffix",
        "Given Name Yomi", "Family Name Yomi", "Home Street", "Home City",
        "Home State", "Home Postal Code", "Home Country", "Company", "Department",
        "Job Title", "Office Location", "Business Street", "Business City",
        "Business State", "Business Postal Code", "Business Country",
        "Other Street", "Other City", "Other State", "Other Postal Code",
        "Other Country", assistantsPhone, "Business Fax", "Business Phone",
        "Business Phone 2", "Callback", "Car Phone", "Company Main Phone",
        "Home Fax", "Home Phone", "Home Phone 2", "ISDN", "Mobile Phone",
        "Other Fax", "Other Phone", "Pager", "Primary Phone", "Radio Phone",
        "TTY/TDD Phone", "Telex", "Anniversary", "Birthday",
        "E-mail Address", "E-mail Type", "E-mail 2 Address",
        "E-mail 2 Type", "E-mail 3 Address", "E-mail 3 Type", "Notes",
        "Spouse", "Web Page"] ∧
    CSV_FILE_HEADERS.length = 56 ∧
    (∀ i, (to_file items).get? (i + 1) = (items.get? i).map rowTuple) ∧
    (∀ r : CsvStructure, ∀ i, (rowTuple r).get? i =
      (CSV_FILE_HEADERS.get? i).map
        (fun k => String.mk ((dictLookup r.fields k).getD []))) := by
  refine ⟨rfl, by decide, ?_, ?_⟩
  · intro i
    simp [to_file, List.get?_map]
  · intro r i
    simp [rowTuple, List.get?_map]

/-- C5: with at most 12 phone numbers, row construction puts the i-th
number into the i-th column of the fixed priority list `phoneCells`
(Mobile Phone, Primary Phone, Other Phone, Home Phone, Home Phone 2,
Business Phone, Business Phone 2, Radio Phone, TTY/TDD Phone, Car Phone,
Company Main Phone, Assistant's Phone) and leaves every later phone column
unset. -/
theorem c5_phones_fill_priority_cells (qp : Bool) (ps : List Str) (h12 : ps.length ≤ 12) :
    ∃ r2, setPhones (csvInit qp) ps = Except.ok r2 ∧
      (∀ i, i < ps.length →
        dictLookup r2.fields (phoneCells.getD i ("")) = some (ps.getD i [])) ∧
      (∀ j, ps.length ≤ j → j < 12 →
        dictLookup r2.fields (phoneCells.getD j ("")) = none) := by
  obtain ⟨r2, hgo, hqp, huntouched, hvals⟩ := setPhonesGo_spec ps 1 (csvInit qp) (by omega)
  refine ⟨r2, hgo, ?_, ?_⟩
  · intro i hi
    have hv := hvals (by omega) i hi
    rw [show 1 + i - 1 = i from by omega] at hv
    exact hv
  · intro j hj hj12
    have hk : ∀ i, i < ps.length →
        phoneCells.getD j ("") ≠ phoneCells.getD (min (1 + i) 12 - 1) ("") := by
      intro i hi
      have hmin : min (1 + i) 12 = 1 + i := by omega
      rw [hmin, show 1 + i - 1 = i from by omega]
      exact phoneCells_getD_injOn j hj12 i (by omega) (by omega)
    rw [huntouched _ hk]
    exact dictLookup_csvInit qp _

/-- C5 witness: the spec's two-number example, instantiating the theorem at
`["+1-555-0100", "+1-555-0200"]` (columns 0 and 1 of `phoneCells` are
Mobile Phone and Primary Phone). -/
theorem c5_witness :
    ((["+1-555-0100", "+1-555-0200"].map String.toList).length ≤ 12) ∧
    (∃ r2, setPhones (csvInit false) (["+1-555-0100", "+1-555-0200"].map String.toList) =
        Except.ok r2 ∧
      (∀ i, i < (["+1-555-0100", "+1-555-0200"].map String.toList).length →
        dictLookup r2.fields (phoneCells.getD i ("")) =
          some ((["+1-555-0100", "+1-555-0200"].map String.toList).getD i [])) ∧
      (∀ j, (["+1-555-0100", "+1-555-0200"].map String.toList).length ≤ j → j < 12 →
        dictLookup r2.fields (phoneCells.getD j ("")) = none)) :=
  ⟨by decide, c5_phones_fill_priority_cells false _ (by decide)⟩

/-- C9: setting a key outside the fixed schema raises the
key-not-recognized error (the error branch performs no dictionary write, so
the row's fields are untouched); setting a schema key stores the value and
leaves every other key's entry unchanged. -/
theorem c9_setItem_schema_check (r : CsvStructure) (kGood kBad : String) (v : Str)
    (hGood : kGood ∈ CSV_FILE_HEADERS) (hBad : kBad ∉ CSV_FILE_HEADERS) :
    (∃ r2, setItem r kGood v = Except.ok r2 ∧
      dictLookup r2.fields kGood = some v ∧
      ∀ k2, k2 ≠ kGood → dictLookup r2.fields k2 = dictLookup r.fields k2) ∧
    setItem r kBad v = Except.error ConvError.keyError := by
  refine ⟨⟨{ r with fields := dictSet r.fields kGood (some v) },
    setItem_mem r kGood v hGood, ?_, ?_⟩, setItem_not_mem r kBad v hBad⟩
  · exact dictLookup_dictSet_self r.fields kGood (some v)
  · intro k2 hk2
    exact dictLookup_dictSet_other r.fields kGood k2 (some v) hk2

/-- C9 witness: `Title` is in the schema, `E-mail` is not. -/
theorem c9_witness :
    ("Title" ∈ CSV_FILE_HEADERS) ∧ ("E-mail" ∉ CSV_FILE_HEADERS) ∧
    ((∃ r2, setItem (csvInit false) ("Title") ("Dr".toList) = Except.ok r2 ∧
        dictLookup r2.fields ("Title") = some ("Dr".toList) ∧
        ∀ k2, k2 ≠ "Title" →
          dictLookup r2.fields k2 = dictLookup (csvInit false).fields k2) ∧
      setItem (csvInit false) ("E-mail") ("Dr".toList) = Except.error ConvError.keyError) :=
  ⟨by decide, by decide,
    c9_setItem_schema_check (csvInit false) ("Title") ("E-mail") ("Dr".toList)
      (by decide) (by decide)⟩

/-- C6, counterexample: `rgx_phone` matches the `TEL...:...` pattern
anywhere in the block, not only at the start of a line.  The single-line
block `NOTEL:123\n` contains no line introduced by `TEL` (its one line
starts with `NOTEL`), yet `extract_phones` captures `123` from it, so the
returned sequence is not the sequence of values of TEL-introduced lines
(which is empty). -/
theorem c6_counterexample_midline_tel :
    extract_phones ("NOTEL:123\n".toList) = ["123".toList] ∧
    startsTEL ("NOTEL:123".toList) = false :=
  ⟨rfl, rfl⟩

/-- C6 (amended: the regex is not anchored to line starts, so the claim
holds once `TEL` occurs only as a line prefix, and a `TEL` line's value is
captured only when nonempty and newline-terminated): for a block built from
newline-free lines in which `TEL` occurs in a line only at position 0 and
every `TEL` line reads `TEL<params-without-colon>:<nonempty value>`,
`extract_phones` returns the values of the `TEL` lines, in block order;
with no `TEL` occurrence at all it returns the empty sequence, without
error. -/
theorem c6_phones_per_line (ls : List Str)
    (hNL : ∀ l ∈ ls, '\n' ∉ l)
    (hMid : ∀ l ∈ ls, hasTEL (l.drop 1) = false)
    (hWF : ∀ l ∈ ls, startsTEL l = true → telTailOk (l.drop 3) = true) :
    extract_phones (joinLines ls) = (ls.filter startsTEL).map telValue :=
  extract_phones_lines ls hNL hMid hWF

/-- C6 witness: a block with two TEL lines (one with parameters) among
other fields. -/
theorem c6_witness :
    (∀ l ∈ (["BEGIN:VCARD", "TEL;CELL:123", "NOTE:x", "TEL:456", "END:VCARD"].map
        String.toList), '\n' ∉ l) ∧
    (∀ l ∈ (["BEGIN:VCARD", "TEL;CELL:123", "NOTE:x", "TEL:456", "END:VCARD"].map
        String.toList), hasTEL (l.drop 1) = false) ∧
    (∀ l ∈ (["BEGIN:VCARD", "TEL;CELL:123", "NOTE:x", "TEL:456", "END:VCARD"].map
        String.toList), startsTEL l = true → telTailOk (l.drop 3) = true) ∧
    extract_phones (joinLines (["BEGIN:VCARD", "TEL;CELL:123", "NOTE:x", "TEL:456",
        "END:VCARD"].map String.toList)) =
      (((["BEGIN:VCARD", "TEL;CELL:123", "NOTE:x", "TEL:456", "END:VCARD"].map
        String.toList)).filter startsTEL).map telValue :=
  ⟨by decide, by decide, by decide, c6_phones_per_line _ (by decide) (by decide) (by decide)⟩

/-- C7: with the quoted-printable flag enabled, the stored first name is the
result of collapsing every `==` to `=`, applying quoted-printable decoding
and reading the bytes as UTF-8; with the flag disabled the raw extracted
text is stored verbatim.  The spec's example `=C3=A9toile` decodes to
`étoile`, also when it arrives with the doubled-escape artifact as
`==C3==A9toile`. -/
theorem c7_name_decoding (nm : Str) :
    (∃ r, setName (csvInit false) nm = Except.ok r ∧
      dictLookup r.fields ("First Name") = some nm) ∧
    (∀ dec, utf8Decode (qpDecodeBytes (collapseEq nm)) = some dec →
      ∃ r, setName (csvInit true) nm = Except.ok r ∧
        dictLookup r.fields ("First Name") = some dec) ∧
    utf8Decode (qpDecodeBytes (collapseEq ("=C3=A9toile".toList))) =
      some ("étoile".toList) ∧
    utf8Decode (qpDecodeBytes (collapseEq ("==C3==A9toile".toList))) =
      some ("étoile".toList) := by
  refine ⟨?_, ?_, rfl, rfl⟩
  · refine ⟨{ csvInit false with
      fields := dictSet (csvInit false).fields ("First Name") (some nm) }, rfl, ?_⟩
    exact dictLookup_dictSet_self _ _ _
  · intro dec hdec
    refine ⟨{ csvInit true with
      fields := dictSet (csvInit true).fields ("First Name") (some dec) }, ?_, ?_⟩
    · have hm : setName (csvInit true) nm =
          match utf8Decode (qpDecodeBytes (collapseEq nm)) with
          | none => Except.error ConvError.decodeError
          | some dec => Except.ok { csvInit true with
              fields := dictSet (csvInit true).fields ("First Name") (some dec) } := rfl
      rw [hm, hdec]
    · exact dictLookup_dictSet_self _ _ _

/-- C7 witness: the decoding conjunct at the spec's example, then the
flag-enabled setter instantiated with it. -/
theorem c7_witness :
    utf8Decode (qpDecodeBytes (collapseEq ("=C3=A9toile".toList))) =
      some ("étoile".toList) ∧
    (∃ r, setName (csvInit true) ("=C3=A9toile".toList) = Except.ok r ∧
      dictLookup r.fields ("First Name") = some ("étoile".toList)) := by
  have h := c7_name_decoding ("=C3=A9toile".toList)
  exact ⟨h.2.2.1, h.2.1 _ h.2.2.1⟩

/-- C8: on a block containing an `FN` occurrence — `FN`, parameter text
without a colon, a colon, then a nonempty value — with no earlier `FN`
occurrence, the extractor captures from the value up to the start of the
next field line (`[\w;,=]+:` at a line start), across the intervening
non-field (folded continuation) lines, and returns it with all newlines
removed. -/
theorem c8_fn_first_occurrence (ws : List Str) (params v : Str) (between : List Str)
    (u : Str) (after : List Str)
    (hws : ∀ l ∈ ws, '\n' ∉ l ∧ hasFN l = false)
    (hp : ':' ∉ params) (hv : '\n' ∉ v) (hvne : v ≠ [])
    (hbet : ∀ b ∈ between, '\n' ∉ b ∧ fieldStart b = false)
    (hu : '\n' ∉ u) (huf : fieldStart u = true) :
    extract_formatted_name
        (joinLines (ws ++ ('F' :: 'N' :: (params ++ ':' :: v)) ::
          (between ++ u :: after))) =
      some (v ++ between.flatten) :=
  extract_fn_lines ws params v between u after hws hp hv hvne hbet hu huf

/-- C8 witness: a folded name `FN;CHARSET=UTF-8:John\n Smith` followed by a
`TEL` field line; the captured name is `John Smith`. -/
theorem c8_witness :
    (∀ l ∈ (["BEGIN:VCARD", "VERSION:2.1"].map String.toList),
      '\n' ∉ l ∧ hasFN l = false) ∧
    (':' ∉ (";CHARSET=UTF-8".toList)) ∧ ('\n' ∉ ("John".toList)) ∧
    ("John".toList ≠ []) ∧
    (∀ b ∈ ([" Smith"].map String.toList), '\n' ∉ b ∧ fieldStart b = false) ∧
    ('\n' ∉ ("TEL:1".toList)) ∧ (fieldStart ("TEL:1".toList) = true) ∧
    extract_formatted_name
        (joinLines ((["BEGIN:VCARD", "VERSION:2.1"].map String.toList) ++
          ('F' :: 'N' :: ((";CHARSET=UTF-8".toList) ++ ':' :: ("John".toList))) ::
          (([" Smith"].map String.toList) ++ ("TEL:1".toList) ::
            (["END:VCARD"].map String.toList)))) =
      some (("John".toList) ++ ([" Smith"].map String.toList).flatten) :=
  ⟨by decide, by decide, by decide, by decide, by decide, by decide, by decide,
    c8_fn_first_occurrence _ _ _ _ _ _ (by decide) (by decide) (by decide) (by decide)
      (by decide) (by decide) (by decide)⟩

/-- C3: an input consisting of exactly N well-formed `BEGIN:VCARD` …
`END:VCARD` segments, each of whose block text has an `FN` match, is split
by the reader into exactly those N blocks in input order, and converts to
exactly one header row followed by N data rows, the i-th data row built
from the i-th block. -/
theorem c3_n_blocks_n_rows (segs : List VSeg)
    (hwf : ∀ s ∈ segs, segWF s)
    (hfn : ∀ s ∈ segs, (extract_formatted_name (segBlock s)).isSome = true) :
    vcards_reader ((segs.map segLines).flatten) = segs.map segBlock ∧
    ∃ out, vcf_to_csv false ((segs.map segLines).flatten) = Except.ok out ∧
      out.length = segs.length + 1 ∧
      out.get? 0 = some CSV_FILE_HEADERS ∧
      ∀ i, out.get? (i + 1) =
        ((segs.get? i).map segBlock).bind
          (fun b => (buildRow false b).toOption.map rowTuple) := by
  have hreader := vcards_reader_segs segs hwf
  have hall : ∀ b ∈ segs.map segBlock, ∃ r, buildRow false b = Except.ok r := by
    intro b hb
    obtain ⟨s, hs, rfl⟩ := List.mem_map.mp hb
    exact buildRow_false_ok _ (hfn s hs)
  obtain ⟨rows, hrows, hlen, hget⟩ := convertBlocks_ok (segs.map segBlock) hall
  refine ⟨hreader, to_file rows, ?_, ?_, rfl, ?_⟩
  · simp [vcf_to_csv, hreader, hrows, Except.map]
  · simp [to_file, hlen]
  · intro i
    have h1 : (to_file rows).get? (i + 1) = (rows.get? i).map rowTuple := by
      simp [to_file, List.get?_map]
    rw [h1, hget i, List.get?_map]
    cases segs.get? i with
    | none => rfl
    | some s => cases buildRow false (segBlock s) <;> rfl

/-- C3 witness: the two-record sample input, one record with a phone and
one without. -/
theorem c3_witness :
    (∀ s ∈ sampleSegs, segWF s) ∧
    (∀ s ∈ sampleSegs, (extract_formatted_name (segBlock s)).isSome = true) ∧
    (vcards_reader ((sampleSegs.map segLines).flatten) = sampleSegs.map segBlock ∧
    ∃ out, vcf_to_csv false ((sampleSegs.map segLines).flatten) = Except.ok out ∧
      out.length = sampleSegs.length + 1 ∧
      out.get? 0 = some CSV_FILE_HEADERS ∧
      ∀ i, out.get? (i + 1) =
        ((sampleSegs.get? i).map segBlock).bind
          (fun b => (buildRow false b).toOption.map rowTuple)) :=
  ⟨by decide, by decide, c3_n_blocks_n_rows sampleSegs (by decide) (by decide)⟩

/-- C4: when any block produced by the reader has no `FN` match, the
conversion raises before `to_file` is reached, so no output at all is
produced — not even for well-formed earlier records (`Except.error` is the
propagated exception, and the collection is only written on success); with
the default flag (quoted-printable decoding off, where name extraction is
the only failure mode) the error is exactly the FN-not-found failure. -/
theorem c4_missing_fn_aborts (qp : Bool) (lines : List Str)
    (h : ∃ b ∈ vcards_reader lines, extract_formatted_name b = none) :
    (∃ e, vcf_to_csv qp lines = Except.error e) ∧
    vcf_to_csv false lines = Except.error ConvError.fnNotFound := by
  constructor
  · obtain ⟨e, he⟩ := convertBlocks_error qp (vcards_reader lines) h
    exact ⟨e, by simp [vcf_to_csv, he, Except.map]⟩
  · have h2 := convertBlocks_fnNotFound (vcards_reader lines) h
    simp [vcf_to_csv, h2, Except.map]

/-- C4 witness: a single block with a `TEL` line but no `FN`. -/
theorem c4_witness :
    (∃ b ∈ vcards_reader (["BEGIN:VCARD\n", "TEL:5\n", "END:VCARD\n"].map String.toList),
      extract_formatted_name b = none) ∧
    vcf_to_csv false (["BEGIN:VCARD\n", "TEL:5\n", "END:VCARD\n"].map String.toList) =
      Except.error ConvError.fnNotFound :=
  ⟨by decide, (c4_missing_fn_aborts false _ (by decide)).2⟩

/-- C10: block emission is triggered solely by lines starting with
`END:VCARD`; consequently the reader's output is unchanged by appending any
suffix of lines none of which starts with `END:VCARD` — such trailing
content (the whole input, when no `END:VCARD` line exists, since
`vcards_reader [] = []`) stays in the buffer and is silently discarded. -/
theorem c10_trailing_lines_discarded (ls1 ls2 : List Str)
    (h : ∀ l ∈ ls2, isENDline l = false) :
    vcards_reader (ls1 ++ ls2) = vcards_reader ls1 := by
  unfold vcards_reader
  rw [readerGo_append ls1 ls2 [], readerGo_noEnd ls2 h]
  simp

/-- C10 witness: two stray lines after the last `END:VCARD` line do not
change the emitted blocks. -/
theorem c10_witness :
    (∀ l ∈ (["FN:Bob\n", "junk\n"].map String.toList), isENDline l = false) ∧
    vcards_reader ((["BEGIN:VCARD\n", "FN:Al\n", "END:VCARD\n"].map String.toList) ++
        (["FN:Bob\n", "junk\n"].map String.toList)) =
      vcards_reader (["BEGIN:VCARD\n", "FN:Al\n", "END:VCARD\n"].map String.toList) :=
  ⟨by decide, c10_trailing_lines_discarded _ _ (by decide)⟩
